import Mathlib

/-!
Verification of the on-disk repository layer of git-rs (`src/repository.rs`).

The filesystem is shallowly embedded as a finite association list from
absolute paths (lists of path components, rooted at an implicit `/`) to
entries (directories or files holding raw bytes).  The Rust functions of
`Repository` are translated into explicit state-passing functions over this
filesystem; a Rust `panic!`/`unwrap`/`expect` failure is modelled as an
`Except.error`, carrying the filesystem state at the moment of the abort.
There are no symlinks and all paths are absolute, so `fs::canonicalize` is
modelled as the identity on existing paths (it fails on missing paths, as the
real one does).
-/

namespace GitRs

/-- An absolute filesystem path, as its list of components below the root. -/
abbrev FPath := List String

/-- A filesystem entry: a directory, or a file holding raw bytes. -/
inductive Entry : Type
  | dir : Entry
  | file : List Nat → Entry
deriving DecidableEq, Repr

/-- A filesystem: an association list from absolute paths to entries.
The root `[]` always exists as a directory and is not listed. -/
structure FS : Type where
  entries : List (FPath × Entry)
deriving DecidableEq, Repr

/-- Look up the entry at a path.  The first binding for a key wins; the root
always exists as a directory. -/
def FS.lookup (fs : FS) (p : FPath) : Option Entry :=
  if p = [] then some Entry.dir
  else (fs.entries.find? (fun q => decide (q.1 = p))).map (fun q => q.2)

/-- Bind path `p` to entry `e`, dropping any previous binding of `p`. -/
def FS.set (fs : FS) (p : FPath) (e : Entry) : FS :=
  ⟨(p, e) :: fs.entries.filter (fun q => decide (q.1 ≠ p))⟩

/-- `true` when the path is bound to a directory (mirrors `Path::is_dir`). -/
def FS.isDir (fs : FS) (p : FPath) : Bool :=
  fs.lookup p == some Entry.dir

/-- `true` when some entry is a direct child of `p` (what `fs::read_dir`
would enumerate). -/
def FS.hasChild (fs : FS) (p : FPath) : Bool :=
  fs.entries.any (fun q => decide (q.1.length = p.length + 1) && decide (p <+: q.1))

/-- Source `is_empty_dir` (repository.rs:153-155): `path.is_dir()` and
`read_dir` yields no entry. -/
def is_empty_dir (fs : FS) (p : FPath) : Bool :=
  fs.isDir p && !(fs.hasChild p)

/-- Helper for `fs::create_dir_all`: walk the remaining components, creating
each missing directory; fail (second component `false`) if a component is
occupied by a file.  The returned filesystem reflects the partial creation
done before a failure, as on a real filesystem. -/
def createDirAllAux (fs : FS) (pre : FPath) : List String → FS × Bool
  | [] => (fs, true)
  | c :: cs =>
    match fs.lookup (pre ++ [c]) with
    | some Entry.dir => createDirAllAux fs (pre ++ [c]) cs
    | some (Entry.file _) => (fs, false)
    | none => createDirAllAux (fs.set (pre ++ [c]) Entry.dir) (pre ++ [c]) cs

/-- `fs::create_dir_all`: create the directory and all missing ancestors. -/
def FS.createDirAll (fs : FS) (p : FPath) : FS × Bool :=
  createDirAllAux fs [] p

/-- `File::create` followed by writing `content`: truncates/creates the file.
Fails (`none`) when the path is an existing directory or its parent is not an
existing directory. -/
def FS.createFile (fs : FS) (p : FPath) (content : List Nat) : Option FS :=
  if fs.lookup p = some Entry.dir then none
  else if fs.lookup p.dropLast = some Entry.dir then some (fs.set p (Entry.file content))
  else none

/-- Every entry's proper, non-root ancestors exist and are directories —
the frame condition every real filesystem satisfies. -/
def FS.WellFormed (fs : FS) : Prop :=
  ∀ pe ∈ fs.entries, ∀ q ∈ pe.1.inits, q ≠ pe.1 → q ≠ [] → fs.lookup q = some Entry.dir

instance (fs : FS) : Decidable fs.WellFormed := by
  unfold FS.WellFormed; infer_instance

/-- The failure modes of the layer; each corresponds to a `panic!`,
`unwrap`/`expect`, or slice-index abort in `repository.rs`. -/
inductive Err : Type
  | notADirectory
  | repositoryAlreadyExists
  | createFailed
  | initializationFailed
  | writeFailed
  | unwrapNone
  | indexOutOfRange
  | pathResolutionError
deriving DecidableEq, Repr

/-- Bytes of a string (ASCII contents only are used here). -/
def strBytes (s : String) : List Nat := s.toList.map Char.toNat

/-- Running Adler-32 state over a byte stream (the zlib trailer checksum). -/
def adlerPair (d : List Nat) : Nat × Nat :=
  d.foldl (fun ab x => ((ab.1 + x % 256) % 65521, (ab.2 + ab.1 + x % 256) % 65521)) (1, 0)

/-- The four checksum trailer bytes of a zlib stream over `d`. -/
def adler32Bytes (d : List Nat) : List Nat :=
  [(adlerPair d).2 / 256, (adlerPair d).2 % 256, (adlerPair d).1 / 256, (adlerPair d).1 % 256]

/-- Modelled from the spec: the deflate-family (zlib) stream compressor is an
external collaborator "consumed, not implemented, by this core" (spec section 6,
the `flate2` crate in the source).  It is modelled as an executable lossless
zlib-shaped framing: a two-byte header, the payload body, and a four-byte
Adler-32 trailer. -/
def deflateCompress (d : List Nat) : List Nat :=
  120 :: 1 :: (d ++ adler32Bytes d)

/-- Modelled from the spec: the matching deflate-family decompressor (external
collaborator); strips the two header bytes and the four trailer bytes. -/
def deflateDecompress (l : List Nat) : List Nat :=
  (l.drop 2).take ((l.drop 2).length - 4)

/-- Source `Repository` struct (repository.rs:10-13): a worktree root and its
control directory (`gitdir`). -/
structure Repository : Type where
  worktree : FPath
  gitdir : FPath
deriving DecidableEq, Repr

/-- Source `Repository::new` (repository.rs:16-21). -/
def Repository.new (worktree : FPath) : Repository :=
  ⟨worktree, worktree ++ [".gitrs"]⟩

/-- Source `Repository::repo_path` (repository.rs:112-117): fold the segments
onto `gitdir` with `push`, i.e. append them. -/
def Repository.repo_path (r : Repository) (paths : List String) : FPath :=
  r.gitdir ++ paths

/-- Source `Repository::repo_dir` (repository.rs:129-143). -/
def Repository.repo_dir (r : Repository) (fs : FS) (paths : List String)
    (should_mkdir : Bool) : FS × Except Err (Option FPath) :=
  let path := r.repo_path paths
  if (fs.lookup path).isSome then
    if fs.lookup path = some Entry.dir then (fs, Except.ok (some path))
    else (fs, Except.error Err.notADirectory)
  else if should_mkdir then
    match fs.createDirAll path with
    | (fs2, true) => (fs2, Except.ok (some path))
    | (fs2, false) => (fs2, Except.error Err.createFailed)
  else (fs, Except.ok none)

/-- Source `Repository::repo_file` (repository.rs:121-126).  The Rust slice
`&paths[..paths.len() - 1]` aborts on an empty segment list, modelled by
`Err.indexOutOfRange`. -/
def Repository.repo_file (r : Repository) (fs : FS) (paths : List String)
    (should_mkdir : Bool) : FS × Except Err (Option FPath) :=
  if paths.isEmpty then (fs, Except.error Err.indexOutOfRange)
  else
    match r.repo_dir fs paths.dropLast should_mkdir with
    | (fs2, Except.ok (some _)) => (fs2, Except.ok (some (r.repo_path paths)))
    | (fs2, Except.ok none) => (fs2, Except.ok none)
    | (fs2, Except.error e) => (fs2, Except.error e)

/-- Source `Repository::get_path_to_file` (repository.rs:74-77).  Note the
source calls `.unwrap()` on the intermediate `repo_file` result, so a missing
parent directory aborts (`Err.unwrapNone`). -/
def Repository.get_path_to_file (r : Repository) (fs : FS) (paths : List String) :
    FS × Except Err (Option FPath) :=
  match r.repo_file fs paths false with
  | (fs2, Except.ok (some path)) =>
    if (fs2.lookup path).isSome then (fs2, Except.ok (some path))
    else (fs2, Except.ok none)
  | (fs2, Except.ok none) => (fs2, Except.error Err.unwrapNone)
  | (fs2, Except.error e) => (fs2, Except.error e)

/-- Source `Repository::get_path_to_dir` (repository.rs:79-81). -/
def Repository.get_path_to_dir (r : Repository) (fs : FS) (paths : List String) :
    FS × Except Err (Option FPath) :=
  r.repo_dir fs paths false

/-- Source `Repository::upsert_file` (repository.rs:83-91): resolve the target
with parent creation, `File::create` (truncate), and write the zlib-compressed
payload. -/
def Repository.upsert_file (r : Repository) (fs : FS) (paths : List String)
    (data : List Nat) : FS × Except Err (Option FPath) :=
  match r.repo_file fs paths true with
  | (fs2, Except.ok (some path)) =>
    match fs2.createFile path (deflateCompress data) with
    | some fs3 => (fs3, Except.ok (some path))
    | none => (fs2, Except.error Err.writeFailed)
  | (fs2, Except.ok none) => (fs2, Except.error Err.unwrapNone)
  | (fs2, Except.error e) => (fs2, Except.error e)

/-- Source `Repository::find_repository` (repository.rs:95-105).
`canonicalize(current_path).unwrap()` aborts when the path does not exist and
is the identity otherwise (the model has no symlinks or relative paths). -/
def Repository.find_repository (fs : FS) (current_path : FPath) :
    Except Err (Option Repository) :=
  if (fs.lookup current_path).isSome then
    if (fs.lookup (current_path ++ [".gitrs"])).isSome then
      Except.ok (some (Repository.new current_path))
    else if h : current_path = [] then Except.ok none
    else Repository.find_repository fs current_path.dropLast
  else Except.error Err.pathResolutionError
termination_by current_path.length
decreasing_by
  have hl : current_path.length ≠ 0 := fun hc => h (List.length_eq_zero.mp hc)
  simp only [List.length_dropLast]
  omega

/-- Source `Repository::write_to_repo_file` (repository.rs:145-150):
`File::create` then `write_all`, aborting on failure. -/
def Repository.write_to_repo_file (fs : FS) (path : FPath) (content : List Nat) :
    FS × Except Err Unit :=
  match fs.createFile path content with
  | some fs2 => (fs2, Except.ok ())
  | none => (fs, Except.error Err.writeFailed)

/-- The exact `description` seed bytes written by the source
(repository.rs:58); note the source misspells "Unamed".  The apostrophes
around `description` are byte 39. -/
def descriptionContent : List Nat :=
  strBytes "Unamed repository; edit this file " ++ [39] ++ strBytes "description" ++
    [39] ++ strBytes " to name the repository.\n"

/-- The `HEAD` seed bytes written by the source (repository.rs:65). -/
def headContent : List Nat := strBytes "ref: refs/heads/master\n"

/-- The description seed text as the specification states it (spec section 6,
"Unnamed repository; ..."), for comparison with what the source writes. -/
def specDescriptionContent : List Nat :=
  strBytes "Unnamed repository; edit this file " ++ [39] ++ strBytes "description" ++
    [39] ++ strBytes " to name the repository.\n"

/-- The four skeleton directory segment lists created by `init`
(repository.rs:41-46). -/
def skeletonDirs : List (List String) :=
  [["branches"], ["objects"], ["refs", "tags"], ["refs", "heads"]]

/-- Source `Repository::init`, lines 39-70: skeleton directory creation,
the dead `did_create_dirs` check, and the two seed file writes, starting from
the filesystem state `fs1` left by the precondition checks. -/
def Repository.initBody (repository : Repository) (fs1 : FS) : FS × Except Err Repository :=
  match repository.repo_dir fs1 ["branches"] true with
  | (fs2, Except.error e) => (fs2, Except.error e)
  | (fs2, Except.ok o1) =>
    match repository.repo_dir fs2 ["objects"] true with
    | (fs3, Except.error e) => (fs3, Except.error e)
    | (fs3, Except.ok o2) =>
      match repository.repo_dir fs3 ["refs", "tags"] true with
      | (fs4, Except.error e) => (fs4, Except.error e)
      | (fs4, Except.ok o3) =>
        match repository.repo_dir fs4 ["refs", "heads"] true with
        | (fs5, Except.error e) => (fs5, Except.error e)
        | (fs5, Except.ok o4) =>
          if o1.isSome && o2.isSome && o3.isSome && o4.isSome then
            match repository.repo_file fs5 ["description"] false with
            | (fs6, Except.error e) => (fs6, Except.error e)
            | (fs6, Except.ok none) => (fs6, Except.error Err.unwrapNone)
            | (fs6, Except.ok (some dpath)) =>
              match Repository.write_to_repo_file fs6 dpath descriptionContent with
              | (fs7, Except.error e) => (fs7, Except.error e)
              | (fs7, Except.ok _) =>
                match repository.repo_file fs7 ["HEAD"] false with
                | (fs8, Except.error e) => (fs8, Except.error e)
                | (fs8, Except.ok none) => (fs8, Except.error Err.unwrapNone)
                | (fs8, Except.ok (some hpath)) =>
                  match Repository.write_to_repo_file fs8 hpath headContent with
                  | (fs9, Except.error e) => (fs9, Except.error e)
                  | (fs9, Except.ok _) => (fs9, Except.ok repository)
          else (fs5, Except.error Err.initializationFailed)

/-- Source `Repository::init`, lines 23-37: the precondition checks on the
worktree and control directory, creating the path when the worktree is
missing. -/
def Repository.initCheck (fs0 : FS) (worktree : FPath) : FS × Except Err Unit :=
  let gitdir := worktree ++ [".gitrs"]
  if (fs0.lookup worktree).isSome then
    if fs0.lookup worktree = some Entry.dir then
      if (fs0.lookup gitdir).isSome && !(is_empty_dir fs0 gitdir) then
        (fs0, Except.error Err.repositoryAlreadyExists)
      else (fs0, Except.ok ())
    else (fs0, Except.error Err.notADirectory)
  else
    match fs0.createDirAll gitdir with
    | (fs1, true) => (fs1, Except.ok ())
    | (fs1, false) => (fs1, Except.error Err.createFailed)

/-- Source `Repository::init` (repository.rs:23-71): precondition checks
(lines 23-37), then the skeleton/seed body. -/
def Repository.init (fs0 : FS) (worktree : FPath) : FS × Except Err Repository :=
  match Repository.initCheck fs0 worktree with
  | (fs1, Except.error e) => (fs1, Except.error e)
  | (fs1, Except.ok _) => Repository.initBody (Repository.new worktree) fs1

/-- All four skeleton directories exist under `gd` and each is empty. -/
def skeletonOk (fs : FS) (gd : FPath) : Bool :=
  skeletonDirs.all (fun d => (fs.lookup (gd ++ d) == some Entry.dir) && is_empty_dir fs (gd ++ d))

/-- A sample filesystem holding an initialized-looking control directory. -/
def fsRepo : FS := ⟨[(["w"], Entry.dir), (["w", ".gitrs"], Entry.dir)]⟩

/-! ### Basic filesystem lemmas -/

/-- The modelled codec is lossless, as the spec assumes of the real one. -/
theorem deflateDecompress_deflateCompress (d : List Nat) :
    deflateDecompress (deflateCompress d) = d := by
  have h4 : (adler32Bytes d).length = 4 := rfl
  simp [deflateDecompress, deflateCompress, h4]

theorem FS.mem_of_lookup {fs : FS} {p : FPath} {e : Entry} (hp : p ≠ [])
    (h : fs.lookup p = some e) : (p, e) ∈ fs.entries := by
  unfold FS.lookup at h
  rw [if_neg hp] at h
  rcases hf : fs.entries.find? (fun q => decide (q.1 = p)) with _ | q
  · rw [hf] at h; exact absurd h (by simp)
  · rw [hf] at h
    have hq1 : q.1 = p := by have := List.find?_some hf; simpa using this
    have hq2 : q.2 = e := by simpa using h
    have hmem := List.mem_of_find?_eq_some hf
    have hq : q = (p, e) := Prod.ext hq1 hq2
    rwa [hq] at hmem

theorem FS.lookup_set_self (fs : FS) {p : FPath} (e : Entry) (hp : p ≠ []) :
    (fs.set p e).lookup p = some e := by
  unfold FS.lookup FS.set
  rw [if_neg hp]
  rw [List.find?_cons_of_pos _ (by simp)]
  rfl

theorem find?_filter_ne {l : List (FPath × Entry)} {p q : FPath} (h : q ≠ p) :
    (l.filter (fun e => decide (e.1 ≠ p))).find? (fun e => decide (e.1 = q)) =
      l.find? (fun e => decide (e.1 = q)) := by
  induction l with
  | nil => rfl
  | cons a l ih =>
    simp only [List.filter_cons]
    by_cases ha : a.1 = p
    · rw [if_neg (by simp [ha])]
      rw [ih, List.find?_cons_of_neg]
      simp only [decide_eq_true_eq]
      rw [ha]
      exact fun hh => h hh.symm
    · rw [if_pos (by simpa using ha)]
      by_cases haq : a.1 = q
      · rw [List.find?_cons_of_pos _ (by simp [haq]), List.find?_cons_of_pos _ (by simp [haq])]
      · rw [List.find?_cons_of_neg _ (by simp [haq]), List.find?_cons_of_neg _ (by simp [haq])]
        exact ih

theorem FS.lookup_set_ne (fs : FS) {p q : FPath} (e : Entry) (h : q ≠ p) :
    (fs.set p e).lookup q = fs.lookup q := by
  unfold FS.lookup FS.set
  by_cases hq : q = []
  · simp [hq]
  · rw [if_neg hq, if_neg hq]
    rw [List.find?_cons_of_neg _ (by simp only [decide_eq_true_eq]; exact fun hh => h hh.symm)]
    rw [find?_filter_ne h]

theorem filter_idem {α : Type} (P : α → Bool) (l : List α) :
    (l.filter P).filter P = l.filter P := by
  induction l with
  | nil => rfl
  | cons a l ih =>
    rcases hP : P a with _ | _ <;> simp [List.filter_cons, hP, ih]

theorem FS.set_set (fs : FS) (p : FPath) (a b : Entry) :
    (fs.set p a).set p b = fs.set p b := by
  unfold FS.set
  simp only [FS.mk.injEq, List.cons.injEq, true_and]
  rw [List.filter_cons, if_neg (by simp)]
  exact filter_idem _ _

theorem FS.mem_set {fs : FS} {p : FPath} {e : Entry} {q : FPath × Entry}
    (h : q ∈ (fs.set p e).entries) : q = (p, e) ∨ q ∈ fs.entries := by
  unfold FS.set at h
  rcases List.mem_cons.mp h with h2 | h2
  · exact Or.inl h2
  · exact Or.inr (List.mem_filter.mp h2).1

theorem append_prefix_cancel {α : Type} {l a b : List α} (h : l ++ a <+: l ++ b) :
    a <+: b :=
  (List.prefix_append_right_inj l).mp h

/-! ### Lemmas about `createDirAllAux` -/

theorem createDirAllAux_preserve {rest : List String} {fs fs2 : FS} {pre q : FPath}
    {e : Entry} {b : Bool} (hrun : createDirAllAux fs pre rest = (fs2, b))
    (h : fs.lookup q = some e) : fs2.lookup q = some e := by
  induction rest generalizing fs pre with
  | nil =>
    unfold createDirAllAux at hrun
    cases hrun
    exact h
  | cons c cs ih =>
    unfold createDirAllAux at hrun
    rcases hl : fs.lookup (pre ++ [c]) with _ | (_ | cnt)
    · rw [hl] at hrun
      have hne : q ≠ pre ++ [c] := fun hq => by rw [hq, hl] at h; exact absurd h (by simp)
      exact ih hrun (by rw [FS.lookup_set_ne _ _ hne]; exact h)
    · rw [hl] at hrun
      exact ih hrun h
    · rw [hl] at hrun
      cases hrun
      exact h

theorem createDirAllAux_post {rest : List String} {fs fs2 : FS} {pre : FPath}
    (hrun : createDirAllAux fs pre rest = (fs2, true)) :
    (rest = [] ∧ fs2 = fs) ∨ fs2.lookup (pre ++ rest) = some Entry.dir := by
  induction rest generalizing fs pre with
  | nil =>
    unfold createDirAllAux at hrun
    cases hrun
    exact Or.inl ⟨rfl, rfl⟩
  | cons c cs ih =>
    unfold createDirAllAux at hrun
    rcases hl : fs.lookup (pre ++ [c]) with _ | (_ | cnt)
    · rw [hl] at hrun
      refine Or.inr ?_
      rcases ih hrun with ⟨hcs, hfs⟩ | hx
      · subst hcs
        subst hfs
        exact FS.lookup_set_self fs Entry.dir (by simp)
      · rwa [show pre ++ [c] ++ cs = pre ++ c :: cs by simp] at hx
    · rw [hl] at hrun
      refine Or.inr ?_
      rcases ih hrun with ⟨hcs, hfs⟩ | hx
      · subst hcs
        subst hfs
        simpa using hl
      · rwa [show pre ++ [c] ++ cs = pre ++ c :: cs by simp] at hx
    · rw [hl] at hrun
      exact absurd hrun (by simp)

theorem createDirAllAux_mem {rest : List String} {fs fs2 : FS} {pre : FPath} {b : Bool}
    (hrun : createDirAllAux fs pre rest = (fs2, b)) :
    ∀ q ∈ fs2.entries, q ∈ fs.entries ∨
      (q.2 = Entry.dir ∧ pre <+: q.1 ∧ q.1 <+: pre ++ rest ∧ q.1 ≠ pre) := by
  induction rest generalizing fs pre with
  | nil =>
    unfold createDirAllAux at hrun
    cases hrun
    exact fun q hq => Or.inl hq
  | cons c cs ih =>
    unfold createDirAllAux at hrun
    intro q hq
    rcases hl : fs.lookup (pre ++ [c]) with _ | (_ | cnt)
    · rw [hl] at hrun
      rcases ih hrun q hq with hmem | ⟨hdir, hpre, hsub, hne⟩
      · rcases FS.mem_set hmem with hset | hold
        · refine Or.inr ⟨by rw [hset], ?_, ?_, ?_⟩
          · rw [hset]; exact List.prefix_append pre [c]
          · rw [hset]
            rw [show pre ++ c :: cs = (pre ++ [c]) ++ cs by simp]
            exact List.prefix_append _ _
          · rw [hset]
            intro hcon
            have := congrArg List.length hcon
            simp at this
        · exact Or.inl hold
      · refine Or.inr ⟨hdir, (List.prefix_append pre [c]).trans hpre, ?_, ?_⟩
        · rwa [show pre ++ c :: cs = (pre ++ [c]) ++ cs by simp]
        · intro hcon
          have hlen := hpre.length_le
          rw [hcon] at hlen
          simp at hlen
    · rw [hl] at hrun
      rcases ih hrun q hq with hmem | ⟨hdir, hpre, hsub, hne⟩
      · exact Or.inl hmem
      · refine Or.inr ⟨hdir, (List.prefix_append pre [c]).trans hpre, ?_, ?_⟩
        · rwa [show pre ++ c :: cs = (pre ++ [c]) ++ cs by simp]
        · intro hcon
          have hlen := hpre.length_le
          rw [hcon] at hlen
          simp at hlen
    · rw [hl] at hrun
      cases hrun
      exact Or.inl hq

/-! ### Lemmas about `repo_dir`, `repo_file`, `createFile` -/

theorem repo_dir_true_post {r : Repository} {fs fs2 : FS} {ps : List String}
    {o : Option FPath} (h : r.repo_dir fs ps true = (fs2, Except.ok o)) :
    o = some (r.repo_path ps) ∧ fs2.lookup (r.repo_path ps) = some Entry.dir := by
  simp only [Repository.repo_dir, if_true] at h
  split at h
  · split at h
    · rename_i hdir
      cases h
      exact ⟨rfl, hdir⟩
    · exact absurd h (by simp)
  · split at h
    · rename_i fsc hc
      cases h
      refine ⟨rfl, ?_⟩
      rcases createDirAllAux_post hc with ⟨hnil, hfs⟩ | hx
      · subst hfs
        unfold FS.lookup
        rw [if_pos hnil]
      · simpa using hx
    · exact absurd h (by simp)

theorem repo_dir_true_preserve {r : Repository} {fs fs2 : FS} {ps : List String}
    {x : Except Err (Option FPath)} {q : FPath} {e : Entry}
    (h : r.repo_dir fs ps true = (fs2, x)) (hq : fs.lookup q = some e) :
    fs2.lookup q = some e := by
  simp only [Repository.repo_dir, if_true] at h
  split at h
  · split at h <;> (cases h; exact hq)
  · split at h <;>
      (rename_i fsc hc; cases h; exact createDirAllAux_preserve hc hq)

theorem repo_dir_true_mem {r : Repository} {fs fs2 : FS} {ps : List String}
    {x : Except Err (Option FPath)} (h : r.repo_dir fs ps true = (fs2, x)) :
    ∀ q ∈ fs2.entries, q ∈ fs.entries ∨
      (q.2 = Entry.dir ∧ q.1 <+: r.repo_path ps ∧ q.1 ≠ []) := by
  simp only [Repository.repo_dir, if_true] at h
  have main : ∀ (fsc : FS) (b : Bool), createDirAllAux fs [] (r.repo_path ps) = (fsc, b) →
      ∀ q ∈ fsc.entries, q ∈ fs.entries ∨
        (q.2 = Entry.dir ∧ q.1 <+: r.repo_path ps ∧ q.1 ≠ []) := by
    intro fsc b hc q hq
    rcases createDirAllAux_mem hc q hq with hold | ⟨hdir, _, hsub, hne⟩
    · exact Or.inl hold
    · exact Or.inr ⟨hdir, by simpa using hsub, hne⟩
  split at h
  · split at h <;> (cases h; exact fun q hq => Or.inl hq)
  · split at h <;> (rename_i fsc hc; cases h; exact main _ _ hc)

theorem repo_dir_false_fst {r : Repository} {fs : FS} {ps : List String} :
    (r.repo_dir fs ps false).1 = fs := by
  simp only [Repository.repo_dir]
  split
  · split <;> rfl
  · rfl

theorem repo_file_false_fst {r : Repository} {fs : FS} {ps : List String} :
    (r.repo_file fs ps false).1 = fs := by
  unfold Repository.repo_file
  split
  · rfl
  · rcases hd : (r.repo_dir fs ps.dropLast false) with ⟨fsd, xd⟩
    have hfsd : fsd = fs := by
      have hfst := @repo_dir_false_fst r fs ps.dropLast
      rw [hd] at hfst
      exact hfst
    subst hfsd
    rcases xd with _ | (_ | _) <;> rfl

theorem repo_file_ok_some {r : Repository} {fs fs2 : FS} {ps : List String} {b : Bool}
    {p : FPath} (h : r.repo_file fs ps b = (fs2, Except.ok (some p))) :
    p = r.repo_path ps ∧ ps ≠ [] := by
  unfold Repository.repo_file at h
  split at h
  · exact absurd h (by simp)
  · rename_i hne
    refine ⟨?_, by simpa using hne⟩
    split at h <;> (try cases h) <;> simp_all

theorem repo_file_true_parent {r : Repository} {fs fs2 : FS} {ps : List String}
    {p : FPath} (h : r.repo_file fs ps true = (fs2, Except.ok (some p))) :
    fs2.lookup (r.repo_path ps.dropLast) = some Entry.dir := by
  unfold Repository.repo_file at h
  split at h
  · exact absurd h (by simp)
  · split at h
    · rename_i fsd pd hd
      cases h
      exact (repo_dir_true_post hd).2
    · exact absurd h (by simp)
    · exact absurd h (by simp)

theorem createFile_eq {fs fs2 : FS} {p : FPath} {c : List Nat}
    (h : fs.createFile p c = some fs2) :
    fs2 = fs.set p (Entry.file c) ∧ fs.lookup p ≠ some Entry.dir ∧
      fs.lookup p.dropLast = some Entry.dir := by
  unfold FS.createFile at h
  split at h
  · exact absurd h (by simp)
  · split at h
    · rename_i hnd hpar
      cases h
      exact ⟨rfl, hnd, hpar⟩
    · exact absurd h (by simp)

theorem createFile_some {fs : FS} {p : FPath} (c : List Nat)
    (hnd : fs.lookup p ≠ some Entry.dir) (hpar : fs.lookup p.dropLast = some Entry.dir) :
    fs.createFile p c = some (fs.set p (Entry.file c)) := by
  unfold FS.createFile
  rw [if_neg hnd, if_pos hpar]

theorem repo_file_true_of_parent_dir {r : Repository} {fs : FS} {ps : List String}
    (hne : ps ≠ []) (hd : fs.lookup (r.repo_path ps.dropLast) = some Entry.dir) :
    r.repo_file fs ps true = (fs, Except.ok (some (r.repo_path ps))) := by
  unfold Repository.repo_file
  rw [if_neg (by simpa using hne)]
  have hdir : r.repo_dir fs ps.dropLast true = (fs, Except.ok (some (r.repo_path ps.dropLast))) := by
    simp only [Repository.repo_dir]
    rw [hd]
    rfl
  rw [hdir]

/-! ### Claim C6 -/

/-- C6: for every handle and segment list whose resolved path does not exist,
`repo_dir` with `should_mkdir = false` returns absence (`Ok None`) and performs
no filesystem mutation: the filesystem component of the result is the input
filesystem, unchanged. -/
theorem repo_dir_no_create_is_pure (r : Repository) (fs : FS) (paths : List String)
    (h : fs.lookup (r.repo_path paths) = none) :
    r.repo_dir fs paths false = (fs, Except.ok none) := by
  simp only [Repository.repo_dir]
  rw [h]
  rfl

theorem repo_dir_no_create_is_pure_witness :
    (Repository.new ["w"]).repo_dir fsRepo ["objects"] false = (fsRepo, Except.ok none) :=
  repo_dir_no_create_is_pure (Repository.new ["w"]) fsRepo ["objects"] (by decide)

/-! ### Claim C10 -/

/-- C10: `repo_dir` with `should_mkdir = true` is idempotent: when one call
succeeds with filesystem `fs2` and path `p`, an immediately repeated call on
`fs2` succeeds with the very same filesystem (no further mutation) and the
same path, via the already-exists branch. -/
theorem repo_dir_create_idem (r : Repository) (fs fs2 : FS) (paths : List String)
    (p : FPath) (h : r.repo_dir fs paths true = (fs2, Except.ok (some p))) :
    r.repo_dir fs2 paths true = (fs2, Except.ok (some p)) := by
  obtain ⟨ho, hdir⟩ := repo_dir_true_post h
  have hp : p = r.repo_path paths := Option.some.inj ho
  subst hp
  simp only [Repository.repo_dir]
  rw [hdir]
  rfl

theorem repo_dir_create_idem_witness :
    (Repository.new ["w"]).repo_dir
        ((Repository.new ["w"]).repo_dir ⟨[]⟩ ["refs", "tags"] true).1 ["refs", "tags"] true =
      (((Repository.new ["w"]).repo_dir ⟨[]⟩ ["refs", "tags"] true).1,
        Except.ok (some ["w", ".gitrs", "refs", "tags"])) :=
  repo_dir_create_idem (Repository.new ["w"]) ⟨[]⟩ _ ["refs", "tags"]
    ["w", ".gitrs", "refs", "tags"] (by rfl)

/-! ### Claim C9 -/

/-- C9: for every handle, non-empty segment list and payload, whenever
`upsert_file` returns (does not abort), the result is `Some` of the handle's
control root joined with the segments in order; the `None` arm of its return
type is unreachable. -/
theorem upsert_file_returns_target (r : Repository) (fs : FS) (paths : List String)
    (data : List Nat) (res : Option FPath) (_hne : paths ≠ [])
    (h : (r.upsert_file fs paths data).2 = Except.ok res) :
    res = some (r.repo_path paths) := by
  unfold Repository.upsert_file at h
  split at h
  · rename_i fsA path hrf
    split at h
    · have hres : some path = res := Except.ok.inj h
      rw [← hres]
      exact congrArg some (repo_file_ok_some hrf).1
    · exact absurd h (by simp)
  · exact absurd h (by simp)
  · exact absurd h (by simp)

theorem upsert_file_returns_target_witness :
    some ["w", ".gitrs", "objects", "ab"] =
      some ((Repository.new ["w"]).repo_path ["objects", "ab"]) :=
  upsert_file_returns_target (Repository.new ["w"]) fsRepo ["objects", "ab"] [7, 7]
    (some ["w", ".gitrs", "objects", "ab"]) (by decide) (by rfl)

/-! ### Claim C7 -/

/-- C7: for every handle, segment list and payload, when `upsert_file`
succeeds, the bytes stored at the returned path decompress (with the matching
deflate-family decompressor) to exactly the original payload. -/
theorem upsert_file_roundtrip (r : Repository) (fs : FS) (paths : List String)
    (data : List Nat) (p : FPath)
    (h : (r.upsert_file fs paths data).2 = Except.ok (some p)) :
    ∃ bytes, ((r.upsert_file fs paths data).1).lookup p = some (Entry.file bytes) ∧
      deflateDecompress bytes = data := by
  rcases hu : r.upsert_file fs paths data with ⟨fsU, xU⟩
  rw [hu] at h
  simp only at h
  subst h
  unfold Repository.upsert_file at hu
  split at hu
  · rename_i fsA path hrf
    split at hu
    · rename_i fsB hcf
      obtain ⟨hfsB, _, _⟩ := createFile_eq hcf
      obtain ⟨hpath, hne⟩ := repo_file_ok_some hrf
      have hBU : fsB = fsU ∧ path = p := by
        constructor
        · exact congrArg Prod.fst hu
        · have := congrArg Prod.snd hu
          simpa using this
      obtain ⟨hBU1, hBU2⟩ := hBU
      refine ⟨deflateCompress data, ?_, deflateDecompress_deflateCompress data⟩
      have hpne : p ≠ [] := by
        rw [← hBU2, hpath]
        unfold Repository.repo_path
        exact List.append_ne_nil_of_right_ne_nil _ hne
      rw [← hBU1, hfsB, ← hBU2]
      exact FS.lookup_set_self fsA (Entry.file (deflateCompress data)) (by rwa [hBU2])
    · exact absurd hu (by simp)
  · exact absurd hu (by simp)
  · exact absurd hu (by simp)

theorem upsert_file_roundtrip_witness :
    ∃ bytes,
      (((Repository.new ["w"]).upsert_file fsRepo ["objects", "ab"] [1, 2, 3]).1).lookup
          ["w", ".gitrs", "objects", "ab"] = some (Entry.file bytes) ∧
        deflateDecompress bytes = [1, 2, 3] :=
  upsert_file_roundtrip (Repository.new ["w"]) fsRepo ["objects", "ab"] [1, 2, 3]
    ["w", ".gitrs", "objects", "ab"] (by rfl)

/-! ### Claim C5 -/

/-- C5, counterexample to the claim as stated: on a segment list whose
intermediate parent directory is missing, `get_path_to_file` does not return
`None` — it aborts (the source `unwrap`s the `None` returned by `repo_file`),
even though the resolved target does not exist. -/
theorem get_path_to_file_missing_parent_aborts :
    fsRepo.lookup ((Repository.new ["w"]).repo_path ["a", "b"]) = none ∧
    (Repository.new ["w"]).get_path_to_file fsRepo ["a", "b"] =
      (fsRepo, Except.error Err.unwrapNone) := by
  constructor
  · rfl
  · rfl

/-- C5, amended: for every handle and non-empty segment list whose resolved
target does not exist, `get_path_to_dir` returns `None` as a normal result
(never an error), even when intermediate parent directories are missing;
`get_path_to_file` returns `None` as a normal result provided the parent
directory exists (when intermediate parents are missing it aborts instead,
see the counterexample). -/
theorem get_path_absent_is_none (r : Repository) (fs : FS) (paths : List String)
    (hne : paths ≠ []) (htgt : fs.lookup (r.repo_path paths) = none) :
    r.get_path_to_dir fs paths = (fs, Except.ok none) ∧
    (fs.lookup (r.repo_path paths.dropLast) = some Entry.dir →
      r.get_path_to_file fs paths = (fs, Except.ok none)) := by
  constructor
  · unfold Repository.get_path_to_dir
    simp only [Repository.repo_dir]
    rw [htgt]
    rfl
  · intro hpar
    unfold Repository.get_path_to_file
    have hrf : r.repo_file fs paths false = (fs, Except.ok (some (r.repo_path paths))) := by
      unfold Repository.repo_file
      rw [if_neg (by simpa using hne)]
      have hdir : r.repo_dir fs paths.dropLast false =
          (fs, Except.ok (some (r.repo_path paths.dropLast))) := by
        simp only [Repository.repo_dir]
        rw [hpar]
        rfl
      rw [hdir]
    rw [hrf]
    simp only [htgt]
    rfl

theorem get_path_absent_is_none_witness :
    (Repository.new ["w"]).get_path_to_dir fsRepo ["objects", "c"] = (fsRepo, Except.ok none) ∧
    (Repository.new ["w"]).get_path_to_file fsRepo ["HEAD"] = (fsRepo, Except.ok none) := by
  have h1 := get_path_absent_is_none (Repository.new ["w"]) fsRepo ["objects", "c"]
    (by decide) (by decide)
  have h2 := get_path_absent_is_none (Repository.new ["w"]) fsRepo ["HEAD"]
    (by decide) (by decide)
  exact ⟨h1.1, h2.2 (by decide)⟩

/-! ### Claim C4 -/

/-- C4: when the worktree is an existing directory whose control directory
exists and is non-empty, `init` fails with `RepositoryAlreadyExists` and
returns the filesystem unchanged (no mutation before the abort). -/
theorem init_rejects_nonempty_control_dir (fs : FS) (w : FPath)
    (hw : fs.lookup w = some Entry.dir)
    (hg : (fs.lookup (w ++ [".gitrs"])).isSome = true)
    (hne : is_empty_dir fs (w ++ [".gitrs"]) = false) :
    Repository.init fs w = (fs, Except.error Err.repositoryAlreadyExists) := by
  simp only [Repository.init, Repository.initCheck]
  rw [hw, hg, hne]
  rfl

/-! ### Claim C8 -/

/-- C8: writing `p1` and then `p2` at the same path leaves the state identical
to writing `p2` alone — the second `upsert_file` call from the
post-first-write state returns exactly what `upsert_file` with `p2` returns
from the original state (overwrite via truncation, no append, no merge), and
only `p2` is recoverable after decompression. -/
theorem upsert_file_overwrite (r : Repository) (fs : FS) (paths : List String)
    (p1 p2 : List Nat) (q : FPath)
    (h : (r.upsert_file fs paths p1).2 = Except.ok (some q)) :
    r.upsert_file (r.upsert_file fs paths p1).1 paths p2 = r.upsert_file fs paths p2 ∧
    ((r.upsert_file (r.upsert_file fs paths p1).1 paths p2).1).lookup q =
      some (Entry.file (deflateCompress p2)) ∧
    deflateDecompress (deflateCompress p2) = p2 := by
  rcases hu : r.upsert_file fs paths p1 with ⟨fs1, x1⟩
  rw [hu] at h
  simp only at h
  subst h
  unfold Repository.upsert_file at hu
  split at hu
  · rename_i fsA path hrf
    split at hu
    · rename_i fsB hcf
      have hB1 : fsB = fs1 := congrArg Prod.fst hu
      have hpathq : path = q := by
        have hsnd := congrArg Prod.snd hu
        simp only at hsnd
        exact Option.some.inj (Except.ok.inj hsnd)
      subst hB1
      subst hpathq
      obtain ⟨hfs1, hnd, _⟩ := createFile_eq hcf
      obtain ⟨hq, hne⟩ := repo_file_ok_some hrf
      have hpar : fsA.lookup (r.repo_path paths.dropLast) = some Entry.dir :=
        repo_file_true_parent hrf
      have hqne : path ≠ [] := by
        rw [hq]
        unfold Repository.repo_path
        exact List.append_ne_nil_of_right_ne_nil _ hne
      have hqdrop : path.dropLast = r.repo_path paths.dropLast := by
        rw [hq]
        unfold Repository.repo_path
        exact List.dropLast_append_of_ne_nil _ hne
      have hqnepar : path ≠ r.repo_path paths.dropLast := by
        intro hcon
        have hlen := congrArg List.length hcon
        have hplen : 0 < paths.length := List.length_pos.mpr hne
        rw [hq] at hlen
        unfold Repository.repo_path at hlen
        simp only [List.length_append, List.length_dropLast] at hlen
        omega
      -- the first call leaves the parent directory in place
      have hpar1 : fsB.lookup (r.repo_path paths.dropLast) = some Entry.dir := by
        rw [hfs1, FS.lookup_set_ne fsA _ (fun hcon => hqnepar hcon.symm)]
        exact hpar
      -- the target now holds the first compressed payload
      have hat1 : fsB.lookup path = some (Entry.file (deflateCompress p1)) := by
        rw [hfs1]
        exact FS.lookup_set_self fsA _ hqne
      -- second call from the post-write state
      have hrf2 : r.repo_file fsB paths true = (fsB, Except.ok (some path)) := by
        rw [hq]
        exact repo_file_true_of_parent_dir hne hpar1
      have hcf2 : fsB.createFile path (deflateCompress p2) =
          some (fsB.set path (Entry.file (deflateCompress p2))) :=
        createFile_some _ (by rw [hat1]; simp) (by rw [hqdrop]; exact hpar1)
      have hLHS : r.upsert_file fsB paths p2 =
          (fsB.set path (Entry.file (deflateCompress p2)), Except.ok (some path)) := by
        unfold Repository.upsert_file
        rw [hrf2]
        simp only [hcf2]
      -- direct call with the second payload from the original state
      have hcf3 : fsA.createFile path (deflateCompress p2) =
          some (fsA.set path (Entry.file (deflateCompress p2))) :=
        createFile_some _ hnd (by rw [hqdrop]; exact hpar)
      have hRHS : r.upsert_file fs paths p2 =
          (fsA.set path (Entry.file (deflateCompress p2)), Except.ok (some path)) := by
        unfold Repository.upsert_file
        rw [hrf]
        simp only [hcf3]
      have hsets : fsB.set path (Entry.file (deflateCompress p2)) =
          fsA.set path (Entry.file (deflateCompress p2)) := by
        rw [hfs1]
        exact FS.set_set fsA path _ _
      refine ⟨?_, ?_, deflateDecompress_deflateCompress p2⟩
      · rw [hLHS, hRHS, hsets]
      · rw [hLHS]
        simp only
        rw [hsets]
        exact FS.lookup_set_self fsA _ hqne
    · exact absurd hu (by simp)
  · exact absurd hu (by simp)
  · exact absurd hu (by simp)

theorem upsert_file_overwrite_witness :
    (Repository.new ["w"]).upsert_file
        ((Repository.new ["w"]).upsert_file fsRepo ["objects", "ab"] [1, 2]).1
        ["objects", "ab"] [9, 9, 9] =
      (Repository.new ["w"]).upsert_file fsRepo ["objects", "ab"] [9, 9, 9] ∧
    (((Repository.new ["w"]).upsert_file
        ((Repository.new ["w"]).upsert_file fsRepo ["objects", "ab"] [1, 2]).1
        ["objects", "ab"] [9, 9, 9]).1).lookup ["w", ".gitrs", "objects", "ab"] =
      some (Entry.file (deflateCompress [9, 9, 9])) ∧
    deflateDecompress (deflateCompress [9, 9, 9]) = [9, 9, 9] :=
  upsert_file_overwrite (Repository.new ["w"]) fsRepo ["objects", "ab"] [1, 2] [9, 9, 9]
    ["w", ".gitrs", "objects", "ab"] (by rfl)

theorem init_rejects_nonempty_control_dir_witness :
    Repository.init
        ⟨[(["w"], Entry.dir), (["w", ".gitrs"], Entry.dir),
          (["w", ".gitrs", "x"], Entry.file [0])]⟩ ["w"] =
      (⟨[(["w"], Entry.dir), (["w", ".gitrs"], Entry.dir),
          (["w", ".gitrs", "x"], Entry.file [0])]⟩,
        Except.error Err.repositoryAlreadyExists) :=
  init_rejects_nonempty_control_dir
    ⟨[(["w"], Entry.dir), (["w", ".gitrs"], Entry.dir),
      (["w", ".gitrs", "x"], Entry.file [0])]⟩ ["w"] (by decide) (by decide) (by decide)

/-! ### Claim C2 -/

/-- C2: evaluation of `init` on a fresh worktree.  The skeleton and `HEAD`
seed match the claim, but the `description` seed written by the code begins
with the misspelt "Unamed", not the "Unnamed" the claim and spec state: the
code contradicts the intended fixed text. -/
theorem init_seed_description_misspelt :
    (Repository.init ⟨[]⟩ ["tmp", "proj"]).2 = Except.ok (Repository.new ["tmp", "proj"]) ∧
    ((Repository.init ⟨[]⟩ ["tmp", "proj"]).1).lookup ["tmp", "proj", ".gitrs", "description"] =
      some (Entry.file descriptionContent) ∧
    ((Repository.init ⟨[]⟩ ["tmp", "proj"]).1).lookup ["tmp", "proj", ".gitrs", "HEAD"] =
      some (Entry.file (strBytes "ref: refs/heads/master\n")) ∧
    descriptionContent ≠ specDescriptionContent ∧
    descriptionContent.take 6 = strBytes "Unamed" ∧
    specDescriptionContent.take 7 = strBytes "Unnamed" := by
  refine ⟨rfl, rfl, rfl, by decide, rfl, rfl⟩

/-! ### Claim C1 -/

/-- C1: for every directory strictly inside an initialized repository rooted
at `R` — every strict ancestor chain exists, `R`'s control directory exists,
and no directory strictly below `R` on the way down to the start directory
contains a control directory — `find_repository` returns a handle whose
worktree is exactly `R`: the search is strictly upward and the nearest
ancestor with a control directory wins. -/
theorem find_repository_nearest (fs : FS) (R : FPath) (rest : List String)
    (hroot : (fs.lookup (R ++ [".gitrs"])).isSome = true)
    (hrest : rest ≠ [])
    (hanc : ∀ q ∈ (R ++ rest).inits, (fs.lookup q).isSome = true)
    (hnear : ∀ q ∈ (R ++ rest).inits, R.length < q.length →
      fs.lookup (q ++ [".gitrs"]) = none) :
    Repository.find_repository fs (R ++ rest) = Except.ok (some (Repository.new R)) := by
  induction rest using List.reverseRecOn with
  | nil => exact absurd rfl hrest
  | append_singleton xs x ih =>
    have hcurmem : (R ++ (xs ++ [x])) ∈ (R ++ (xs ++ [x])).inits :=
      (List.mem_inits _ _).mpr List.prefix_rfl
    have h1 := hanc _ hcurmem
    have h2 : fs.lookup ((R ++ (xs ++ [x])) ++ [".gitrs"]) = none := by
      refine hnear _ hcurmem ?_
      simp
    have hcne : R ++ (xs ++ [x]) ≠ [] := by simp
    rw [Repository.find_repository, h1, h2]
    simp only [Option.isSome_none, Bool.false_eq_true, if_false, if_true, dif_neg hcne]
    have hdrop : (R ++ (xs ++ [x])).dropLast = R ++ xs := by
      rw [← List.append_assoc]
      exact List.dropLast_concat
    rw [hdrop]
    have hlift : ∀ q : FPath, q ∈ (R ++ xs).inits → q ∈ (R ++ (xs ++ [x])).inits := by
      intro q hq
      rw [List.mem_inits] at hq ⊢
      refine hq.trans ?_
      rw [← List.append_assoc]
      exact List.prefix_append _ _
    rcases eq_or_ne xs [] with hxs | hxs
    · subst hxs
      simp only [List.append_nil]
      have hR : (fs.lookup R).isSome = true :=
        hanc R (hlift R ((List.mem_inits _ _).mpr (by simp)))
      rw [Repository.find_repository, hR, hroot]
      simp
    · exact ih hxs (fun q hq => hanc q (hlift q hq)) (fun q hq hlen => hnear q (hlift q hq) hlen)

theorem find_repository_nearest_witness :
    Repository.find_repository
        ⟨[(["r"], Entry.dir), (["r", ".gitrs"], Entry.dir), (["r", "a"], Entry.dir),
          (["r", "a", "b"], Entry.dir)]⟩ (["r"] ++ ["a", "b"]) =
      Except.ok (some (Repository.new ["r"])) :=
  find_repository_nearest
    ⟨[(["r"], Entry.dir), (["r", ".gitrs"], Entry.dir), (["r", "a"], Entry.dir),
      (["r", "a", "b"], Entry.dir)]⟩ ["r"] ["a", "b"]
    (by decide) (by decide) (by decide) (by decide)

/-! ### Claim C3 -/

theorem write_to_repo_file_ok {fs fs2 : FS} {p : FPath} {c : List Nat} {u : Unit}
    (h : Repository.write_to_repo_file fs p c = (fs2, Except.ok u)) :
    fs2 = fs.set p (Entry.file c) := by
  unfold Repository.write_to_repo_file at h
  split at h
  · rename_i fsx heq
    have h1 : fsx = fs2 := congrArg Prod.fst h
    rw [← h1]
    exact (createFile_eq heq).1
  · exact absurd (congrArg Prod.snd h) (by simp)

theorem prefix_skeleton_finite :
    ∀ d ∈ skeletonDirs, ∀ i ∈ skeletonDirs, ¬(d <+: i ∧ d.length + 1 ≤ i.length) := by
  decide

theorem hasChild_of_entry {fs : FS} {p : FPath} {q : FPath × Entry}
    (hq : q ∈ fs.entries) (hlen : q.1.length = p.length + 1) (hpre : p <+: q.1) :
    fs.hasChild p = true := by
  unfold FS.hasChild
  refine List.any_eq_true.mpr ⟨q, hq, ?_⟩
  simp [hlen, hpre]

/-- In a well-formed filesystem, a directory with no direct children has no
strict descendants among the entries at all. -/
theorem no_strict_descendant_of_empty {fs : FS} {gd : FPath}
    (hWF : fs.WellFormed)
    (hempty : fs.hasChild gd = false) :
    ∀ pe ∈ fs.entries, gd <+: pe.1 → pe.1 = gd := by
  intro pe hpe hpre
  by_contra hne
  have hlt : gd.length < pe.1.length := by
    rcases Nat.lt_or_ge gd.length pe.1.length with hl | hl
    · exact hl
    · exact absurd (hpre.eq_of_length (Nat.le_antisymm hpre.length_le hl)).symm hne
  have hqpre : pe.1.take (gd.length + 1) <+: pe.1 := List.take_prefix _ _
  have hqlen : (pe.1.take (gd.length + 1)).length = gd.length + 1 := by
    rw [List.length_take]
    omega
  have hgdq : gd <+: pe.1.take (gd.length + 1) :=
    List.prefix_of_prefix_length_le hpre hqpre (by omega)
  by_cases hq_eq : pe.1.take (gd.length + 1) = pe.1
  · have hchild := hasChild_of_entry hpe (by rw [← hq_eq]; exact hqlen) hpre
    rw [hempty] at hchild
    exact Bool.false_ne_true hchild
  · have hlookq := hWF pe hpe (pe.1.take (gd.length + 1))
      ((List.mem_inits _ _).mpr hqpre) hq_eq
      (by intro h0; rw [h0] at hqlen; simp at hqlen)
    have hmemq : (pe.1.take (gd.length + 1), Entry.dir) ∈ fs.entries :=
      FS.mem_of_lookup (by intro h0; rw [h0] at hqlen; simp at hqlen) hlookq
    have hchild := hasChild_of_entry hmemq hqlen hgdq
    rw [hempty] at hchild
    exact Bool.false_ne_true hchild

/-- When the precondition checks pass, the resulting state holds no entry
strictly below the control directory. -/
theorem initCheck_ok_entries {fs fs1 : FS} {w : FPath} {u : Unit}
    (hWF : fs.WellFormed) (hc : Repository.initCheck fs w = (fs1, Except.ok u)) :
    ∀ pe ∈ fs1.entries, (w ++ [".gitrs"]) <+: pe.1 → pe.1 = w ++ [".gitrs"] := by
  simp only [Repository.initCheck] at hc
  split at hc
  · split at hc
    · split at hc
      · exact absurd (congrArg Prod.snd hc) (by simp)
      · rename_i hguard
        have hfs1 : fs = fs1 := congrArg Prod.fst hc
        subst hfs1
        by_cases hex : (fs.lookup (w ++ [".gitrs"])).isSome = true
        · have hemp : is_empty_dir fs (w ++ [".gitrs"]) = true := by
            rcases hem : is_empty_dir fs (w ++ [".gitrs"]) with _ | _
            · exact absurd (by rw [hex, hem]; rfl) hguard
            · rfl
          have hnc : fs.hasChild (w ++ [".gitrs"]) = false := by
            unfold is_empty_dir at hemp
            simp only [Bool.and_eq_true, Bool.not_eq_true'] at hemp
            exact hemp.2
          exact no_strict_descendant_of_empty hWF hnc
        · have hnone : fs.lookup (w ++ [".gitrs"]) = none :=
            Option.not_isSome_iff_eq_none.mp hex
          intro pe hpe hpre
          by_contra hnepe
          have hlook := hWF pe hpe (w ++ [".gitrs"]) ((List.mem_inits _ _).mpr hpre)
            (fun hcon => hnepe hcon.symm) (by simp)
          rw [hnone] at hlook
          exact absurd hlook (by simp)
    · exact absurd (congrArg Prod.snd hc) (by simp)
  · rename_i hnex
    split at hc
    · rename_i fs1x hcd
      have hfs1 : fs1x = fs1 := congrArg Prod.fst hc
      subst hfs1
      have hwnone : fs.lookup w = none := Option.not_isSome_iff_eq_none.mp hnex
      have hwne : w ≠ [] := by
        intro hw0
        rw [hw0] at hwnone
        unfold FS.lookup at hwnone
        simp at hwnone
      intro pe hpe hpre
      rcases createDirAllAux_mem hcd pe hpe with hold | ⟨_, _, hsub, _⟩
      · exfalso
        have hwpre : w <+: pe.1 := (List.prefix_append w [".gitrs"]).trans hpre
        have hwne2 : w ≠ pe.1 := by
          intro hcon
          have h1 := hpre.length_le
          rw [← hcon] at h1
          simp at h1
        have hlook := hWF pe hold w ((List.mem_inits _ _).mpr hwpre) hwne2 hwne
        rw [hwnone] at hlook
        exact absurd hlook (by simp)
      · have hsub2 : pe.1 <+: w ++ [".gitrs"] := by simpa using hsub
        exact hsub2.eq_of_length (Nat.le_antisymm hsub2.length_le hpre.length_le)
    · exact absurd (congrArg Prod.snd hc) (by simp)

/-- Starting from a state with no entry strictly below the control directory,
a successful `initBody` leaves all four skeleton directories present and
empty. -/
theorem initBody_skeleton {repo0 : Repository} {fs1 fsF : FS} {res : Repository}
    (hP1 : ∀ pe ∈ fs1.entries, repo0.gitdir <+: pe.1 → pe.1 = repo0.gitdir)
    (hB : Repository.initBody repo0 fs1 = (fsF, Except.ok res)) :
    skeletonOk fsF repo0.gitdir = true := by
  unfold Repository.initBody at hB
  split at hB
  · exact absurd (congrArg Prod.snd hB) (by simp)
  · rename_i fs2 o1 hd1
    split at hB
    · exact absurd (congrArg Prod.snd hB) (by simp)
    · rename_i fs3 o2 hd2
      split at hB
      · exact absurd (congrArg Prod.snd hB) (by simp)
      · rename_i fs4 o3 hd3
        split at hB
        · exact absurd (congrArg Prod.snd hB) (by simp)
        · rename_i fs5 o4 hd4
          split at hB
          · split at hB
            · exact absurd (congrArg Prod.snd hB) (by simp)
            · exact absurd (congrArg Prod.snd hB) (by simp)
            · rename_i fs6 dpath hf1
              split at hB
              · exact absurd (congrArg Prod.snd hB) (by simp)
              · rename_i fs7 u1 hw1
                split at hB
                · exact absurd (congrArg Prod.snd hB) (by simp)
                · exact absurd (congrArg Prod.snd hB) (by simp)
                · rename_i fs8 hpath hf2
                  split at hB
                  · exact absurd (congrArg Prod.snd hB) (by simp)
                  · rename_i fs9 u2 hw2
                    have hfsF : fs9 = fsF := congrArg Prod.fst hB
                    have hfs6 : fs6 = fs5 := by
                      have hfst := @repo_file_false_fst repo0 fs5 ["description"]
                      rw [hf1] at hfst
                      exact hfst
                    have hdp := (repo_file_ok_some hf1).1
                    have hfs7 := write_to_repo_file_ok hw1
                    have hfs8 : fs8 = fs7 := by
                      have hfst := @repo_file_false_fst repo0 fs7 ["HEAD"]
                      rw [hf2] at hfst
                      exact hfst
                    have hhp := (repo_file_ok_some hf2).1
                    have hfs9 := write_to_repo_file_ok hw2
                    have hne2 : ∀ d ∈ skeletonDirs,
                        repo0.gitdir ++ d ≠ repo0.repo_path ["description"] ∧
                        repo0.gitdir ++ d ≠ repo0.repo_path ["HEAD"] := by
                      intro d hd
                      constructor <;>
                        · intro hcon
                          unfold Repository.repo_path at hcon
                          have hc := List.append_cancel_left hcon
                          fin_cases hd <;> simp at hc
                    have hlook5 : ∀ d ∈ skeletonDirs,
                        fs5.lookup (repo0.gitdir ++ d) = some Entry.dir := by
                      intro d hd
                      fin_cases hd
                      · exact repo_dir_true_preserve hd4 (repo_dir_true_preserve hd3
                          (repo_dir_true_preserve hd2 (repo_dir_true_post hd1).2))
                      · exact repo_dir_true_preserve hd4 (repo_dir_true_preserve hd3
                          (repo_dir_true_post hd2).2)
                      · exact repo_dir_true_preserve hd4 (repo_dir_true_post hd3).2
                      · exact (repo_dir_true_post hd4).2
                    have hlookF : ∀ d ∈ skeletonDirs,
                        fsF.lookup (repo0.gitdir ++ d) = some Entry.dir := by
                      intro d hd
                      rw [← hfsF, hfs9, FS.lookup_set_ne _ _ (by rw [hhp]; exact (hne2 d hd).2),
                        hfs8, hfs7, FS.lookup_set_ne _ _ (by rw [hdp]; exact (hne2 d hd).1), hfs6]
                      exact hlook5 d hd
                    have m5 : ∀ q ∈ fs5.entries, q ∈ fs1.entries ∨
                        (q.2 = Entry.dir ∧ (∃ i ∈ skeletonDirs, q.1 <+: repo0.gitdir ++ i) ∧
                          q.1 ≠ []) := by
                      intro q hq
                      rcases repo_dir_true_mem hd4 q hq with hq4 | ⟨ha, hb, hcx⟩
                      · rcases repo_dir_true_mem hd3 q hq4 with hq3 | ⟨ha, hb, hcx⟩
                        · rcases repo_dir_true_mem hd2 q hq3 with hq2 | ⟨ha, hb, hcx⟩
                          · rcases repo_dir_true_mem hd1 q hq2 with hq1 | ⟨ha, hb, hcx⟩
                            · exact Or.inl hq1
                            · exact Or.inr ⟨ha, ⟨["branches"], by simp [skeletonDirs], hb⟩, hcx⟩
                          · exact Or.inr ⟨ha, ⟨["objects"], by simp [skeletonDirs], hb⟩, hcx⟩
                        · exact Or.inr ⟨ha, ⟨["refs", "tags"], by simp [skeletonDirs], hb⟩, hcx⟩
                      · exact Or.inr ⟨ha, ⟨["refs", "heads"], by simp [skeletonDirs], hb⟩, hcx⟩
                    have hnochild : ∀ d ∈ skeletonDirs,
                        fsF.hasChild (repo0.gitdir ++ d) = false := by
                      intro d hd
                      have hdlen : 1 ≤ d.length := by fin_cases hd <;> decide
                      unfold FS.hasChild
                      refine List.any_eq_false.mpr ?_
                      intro q hq
                      simp only [Bool.and_eq_true, decide_eq_true_eq, not_and]
                      intro hlen hpre
                      rw [← hfsF, hfs9] at hq
                      rcases FS.mem_set hq with hq' | hq'
                      · rw [hq', hhp] at hlen
                        unfold Repository.repo_path at hlen
                        simp only [List.length_append, List.length_cons,
                          List.length_nil] at hlen
                        omega
                      · rw [hfs8, hfs7] at hq'
                        rcases FS.mem_set hq' with hq2 | hq2
                        · rw [hq2, hdp] at hlen
                          unfold Repository.repo_path at hlen
                          simp only [List.length_append, List.length_cons,
                            List.length_nil] at hlen
                          omega
                        · rw [hfs6] at hq2
                          rcases m5 q hq2 with hq3 | ⟨_, ⟨i, hi, hqi⟩, _⟩
                          · have hq1gd : q.1 = repo0.gitdir :=
                              hP1 q hq3 ((List.prefix_append _ _).trans hpre)
                            rw [hq1gd] at hlen
                            simp only [List.length_append] at hlen
                            omega
                          · have hdi : d <+: i :=
                              append_prefix_cancel (hpre.trans hqi)
                            have hq_le := hqi.length_le
                            simp only [List.length_append] at hq_le hlen
                            exact prefix_skeleton_finite d hd i hi ⟨hdi, by omega⟩
                    unfold skeletonOk
                    refine List.all_eq_true.mpr ?_
                    intro d hd
                    have h1 := hlookF d hd
                    have h2 := hnochild d hd
                    unfold is_empty_dir FS.isDir
                    rw [h1, h2]
                    rfl
          · exact absurd (congrArg Prod.snd hB) (by simp)

/-- C3: whenever `init` succeeds on a well-formed filesystem, all four
skeleton directories (`branches/`, `objects/`, `refs/tags/`, `refs/heads/`)
exist under the control directory and each is empty. -/
theorem init_skeleton_complete (fs : FS) (w : FPath) (repo : Repository)
    (hWF : fs.WellFormed) (h : (Repository.init fs w).2 = Except.ok repo) :
    skeletonOk (Repository.init fs w).1 (w ++ [".gitrs"]) = true := by
  rcases hI : Repository.init fs w with ⟨fsF, xF⟩
  rw [hI] at h
  simp only at h
  subst h
  simp only
  simp only [Repository.init] at hI
  split at hI
  · exact absurd (congrArg Prod.snd hI) (by simp)
  · rename_i fs1 u hpre1
    exact initBody_skeleton (initCheck_ok_entries hWF hpre1) hI

theorem init_skeleton_complete_witness :
    skeletonOk (Repository.init ⟨[]⟩ ["p"]).1 (["p"] ++ [".gitrs"]) = true :=
  init_skeleton_complete ⟨[]⟩ ["p"] (Repository.new ["p"]) (by decide) (by rfl)

end GitRs
